import Mathlib

/-!
Verification development for the ModeTonicEstimation repository
(ModeFunctions.py and PitchDistribution.py).

The Python code is shallowly embedded over exact rationals:
numeric values (cent bins, distribution values, timestamps) become `ℚ`,
Python lists / numpy 1-D arrays become `List ℚ`, and fallible code
returns `Except String _` whose error strings echo the Python exception
class raised at that point.  Metadata fields that the code only copies
around (`source`, `segmentation`, `overlap`) are kept as opaque strings.
-/

set_option maxRecDepth 8000

namespace MTE

/-- Python 2 `round()` (the repository is Python 2: `len(...)/2` is used as a
slice index in `generate_pd`): rounding half away from zero.  Used in
`PitchDistribution.__init__` via `round(x*10)/10` and in `slice` chunk
metadata via `int(round(t))`. -/
def pyRound2 (q : ℚ) : ℤ :=
  if 0 ≤ q then ⌊q + 1/2⌋ else -⌊-q + 1/2⌋

/-- Python expression `round(q * 10) / 10` from `PitchDistribution.__init__`. -/
def pyRound10 (q : ℚ) : ℚ :=
  (pyRound2 (q * 10) : ℚ) / 10

/-- Python `int()` truncation toward zero. -/
def pyInt (q : ℚ) : ℤ :=
  if 0 ≤ q then ⌊q⌋ else -⌊-q⌋

/-- Python / numpy `min` over a list of floats.  The source raises `ValueError`
on an empty input; every use below is guarded by a nonemptiness hypothesis, and
the default `0` of the empty case is never reached by any claim. -/
def pyMinQ : List ℚ → ℚ
  | [] => 0
  | x :: xs => xs.foldl min x

/-- Python / numpy `max` over a list of floats (same conventions as `pyMinQ`). -/
def pyMaxQ : List ℚ → ℚ
  | [] => 0
  | x :: xs => xs.foldl max x

/-- Python builtin `max` over a list of ints, raising on an empty list as the
interpreter does (used on `peak_idxs` in `tonic_estimate`). -/
def pyMaxZ : List ℤ → Except String ℤ
  | [] => .error "ValueError: max arg is an empty sequence"
  | x :: xs => .ok (xs.foldl max x)

/-- Python builtin `min` over a list of ints, raising on an empty list. -/
def pyMinZ : List ℤ → Except String ℤ
  | [] => .error "ValueError: min arg is an empty sequence"
  | x :: xs => .ok (xs.foldl min x)

/-- numpy `arange(start, stop, step)`: `⌈(stop-start)/step⌉` elements
`start + i*step` (empty when that count is nonpositive).  This is numpy's
documented element count, for positive and negative `step` alike. -/
def npArange (start stop step : ℚ) : List ℚ :=
  (List.range (Int.toNat ⌈(stop - start) / step⌉)).map
    (fun (i : ℕ) => start + (i : ℚ) * step)

/-- The data entity of PitchDistribution.py.  `segmentation` and `overlap` are
kept opaque (the code never computes with them, it only copies them). -/
structure PitchDistribution where
  bins : List ℚ
  vals : List ℚ
  ref_freq : ℚ
  kernel_width : ℚ
  segmentation : String
  source : String
  overlap : String
  step_size : ℚ
  deriving DecidableEq, Repr

/-- The `step_size` computation of `PitchDistribution.__init__`:
`temp_ss = bins[1] - bins[0]`, kept if it equals `round(temp_ss*10)/10` and
replaced by that rounding otherwise.  Python raises `IndexError` for fewer
than two bins; theorems about constructed distributions carry a
`2 ≤ bins.length` hypothesis where that matters. -/
def stepOf (bins : List ℚ) : ℚ :=
  let temp_ss := bins.getD 1 0 - bins.getD 0 0
  if temp_ss = pyRound10 temp_ss then temp_ss else pyRound10 temp_ss

/-- `PitchDistribution.__init__`: stores the fields and derives `step_size`
from the first two bins. -/
def mkPD (pd_bins pd_vals : List ℚ) (kernel_width : ℚ) (source : String)
    (ref_freq : ℚ) (segment : String) (overlap : String) : PitchDistribution :=
  { bins := pd_bins
    vals := pd_vals
    ref_freq := ref_freq
    kernel_width := kernel_width
    segmentation := segment
    source := source
    overlap := overlap
    step_size := stepOf pd_bins }

/-- `PitchDistribution.is_pcd`:
`max(bins) == 1200 - step_size and min(bins) == 0`. -/
def isPCD (pd : PitchDistribution) : Bool :=
  pyMaxQ pd.bins == 1200 - pd.step_size && pyMinQ pd.bins == 0

/-- Python slice index normalization: the start position of `l[k:]` (equally,
the stop position of `l[:k]`) for an integer `k` on a list of length `n`. -/
def pyIdxClamp (k : ℤ) (n : ℕ) : ℕ :=
  if 0 ≤ k then min k.toNat n else n - min (-k).toNat n

/-- Python `l[k:]` for an integer `k` (negative indices count from the end,
out-of-range indices clamp). -/
def pySliceFrom (l : List ℚ) (k : ℤ) : List ℚ :=
  l.drop (pyIdxClamp k l.length)

/-- Python `l[:k]` for an integer `k`. -/
def pySliceTo (l : List ℚ) (k : ℤ) : List ℚ :=
  l.take (pyIdxClamp k l.length)

/-- `PitchDistribution.shift`: circular shift of `vals` for a PCD, zero-fill
linear shift for a PD, and a field-for-field copy for a zero shift; in every
case a new object is built by `PitchDistribution.__init__` with the same bins
and metadata. -/
def shiftPD (pd : PitchDistribution) (shift_idx : ℤ) : PitchDistribution :=
  if shift_idx ≠ 0 then
    let shifted_vals :=
      if isPCD pd then
        pySliceFrom pd.vals shift_idx ++ pySliceTo pd.vals shift_idx
      else if 0 < shift_idx then
        pd.vals.drop shift_idx.toNat ++ List.replicate shift_idx.toNat 0
      else
        List.replicate shift_idx.natAbs 0 ++ pySliceTo pd.vals shift_idx
    mkPD pd.bins shifted_vals pd.kernel_width pd.source pd.ref_freq
      pd.segmentation pd.overlap
  else
    mkPD pd.bins pd.vals pd.kernel_width pd.source pd.ref_freq
      pd.segmentation pd.overlap

/-- A Python float value as produced by `distance`.  Rationally-valued results
are `rat`; the Bhattacharyya branch produces the transcendental
`-log(Σᵢ √(prods[i]))`, recorded symbolically by the list of elementwise
products it is applied to; `inf` / `nan` are the IEEE specials numpy produces
on zero denominators; `arrF` is a numpy array result (the `corr` branch
returns `1.0 - np.correlate(...)`, an array, not a scalar). -/
inductive PyFloat where
  | rat (q : ℚ)
  | inf
  | nan
  | negLogSumSqrt (prods : List ℚ)
  | arrF (l : List ℚ)
  deriving DecidableEq, Repr

/-- An argument passed to `distance`: either a numeric 1-D array (the `.vals`
of a distribution) or — as actually happens on the `mode_estimate` pD path — a
whole `PitchDistribution` object. -/
inductive PyVal where
  | arr (l : List ℚ)
  | pdObj (pd : PitchDistribution)
  deriving DecidableEq, Repr

/-- numpy `np.correlate(a, v)` in its default valid mode: sliding dot products;
when `a` is shorter than `v` numpy swaps the arguments and reverses the
result. -/
def npCorrelateValid (a v : List ℚ) : List ℚ :=
  if v.length ≤ a.length then
    (List.range (a.length - v.length + 1)).map
      (fun k => (((a.drop k).zip v).map (fun p => p.1 * p.2)).sum)
  else
    ((List.range (v.length - a.length + 1)).map
      (fun k => (((v.drop k).zip a).map (fun p => p.1 * p.2)).sum)).reverse

/-- The module-level function `distance(vals_1, vals_2, method)` of
ModeFunctions.py.  Because the `def distance` statement rebinds the module
name `distance` that line 4 imported from scipy.spatial, the lookups
`distance.euclidean` and `distance.minkowski` inside the body resolve to the
function object itself and raise `AttributeError` — so the euclidean,
manhattan and l3 branches fail before looking at their arguments.
The bhat branch: a sum with any negative product has numpy produce `nan`
(whose `math.log` is `nan`, no exception), an all-zero sum raises
`ValueError: math domain error` from `math.log(0)`, otherwise the value is the
symbolic `-log(Σ √prods)`.  The intersection branch first calls `len(vals_1)`
(a `TypeError` on a `PitchDistribution` object) and divides by `Σ min`,
giving numpy `inf` / `nan` on a zero denominator.  The corr branch returns the
array `1.0 - np.correlate(v1, v2)`.  Binary ufuncs on two objects raise
`TypeError`; on equal-kind arrays of different lengths they raise a broadcast
`ValueError`.  Any unrecognized method returns `0`. -/
def distanceFn (vals_1 vals_2 : PyVal) (method : String) : Except String PyFloat :=
  if method = "euclidean" then
    .error "AttributeError: function object has no attribute euclidean"
  else if method = "manhattan" then
    .error "AttributeError: function object has no attribute minkowski"
  else if method = "l3" then
    .error "AttributeError: function object has no attribute minkowski"
  else if method = "bhat" then
    match vals_1, vals_2 with
    | .arr v1, .arr v2 =>
      if v1.length = v2.length then
        let prods := (v1.zip v2).map (fun p => p.1 * p.2)
        if prods.any (fun p => decide (p < 0)) then .ok .nan
        else if prods.all (fun p => decide (p = 0)) then
          .error "ValueError: math domain error"
        else .ok (.negLogSumSqrt prods)
      else .error "ValueError: operands could not be broadcast together"
    | _, _ => .error "TypeError: unsupported operand type for mul"
  else if method = "intersection" then
    match vals_1, vals_2 with
    | .arr v1, .arr v2 =>
      if v1.length = v2.length then
        let den := ((v1.zip v2).map (fun p => min p.1 p.2)).sum
        if den = 0 then
          if v1.length = 0 then .ok .nan else .ok .inf
        else .ok (.rat (v1.length / den))
      else .error "ValueError: operands could not be broadcast together"
    | _, _ => .error "TypeError: object of type PitchDistribution has no len"
  else if method = "corr" then
    match vals_1, vals_2 with
    | .arr v1, .arr v2 =>
      .ok (.arrF ((npCorrelateValid v1 v2).map (fun c => 1 - c)))
    | _, _ => .error "TypeError: unsupported operand type for correlate"
  else
    .ok (.rat 0)

/-- Assignment of a `distance` result into a scalar slot of a prefilled numpy
float array (`result[i][j] = ...`, `distance_vector[i] = ...`): a one-element
array is silently unwrapped, a longer array raises `ValueError`. -/
def npAssignScalar : PyFloat → Except String PyFloat
  | .arrF [x] => .ok (.rat x)
  | .arrF _ => .error "ValueError: setting an array element with a sequence"
  | f => .ok f

/-- `generate_distance_matrix(dist, peak_idxs, mode_dists, method)`: for each
peak index the distribution is shifted, and every row entry is the distance of
that trial to a mode candidate.  The prefilled `np.zeros` array is modeled by
the nested traversal itself; errors propagate in the loop order of the
source. -/
def generateDistanceMatrix (dist : PitchDistribution) (peak_idxs : List ℤ)
    (mode_dists : List PitchDistribution) (method : String) :
    Except String (List (List PyFloat)) :=
  peak_idxs.mapM (fun cur_peak_idx =>
    let trial := shiftPD dist cur_peak_idx
    mode_dists.mapM (fun cur_mode_dist => do
      let d ← distanceFn (.arr trial.vals) (.arr cur_mode_dist.vals) method
      npAssignScalar d))

/-- `pd_zero_pad(pd, mode_pd, step_size)`: counts the bins of each input that
the other lacks below its minimum and above its maximum and pads that input's
`vals` with that many zeros on each side.  Only `vals` is reassigned — the
`bins` field of both objects is left untouched, exactly as in the source.  The
`step_size` parameter is unused, as in the source. -/
def pdZeroPad (pd mode_pd : PitchDistribution) (step_size : ℚ) :
    PitchDistribution × PitchDistribution :=
  let _ := step_size
  let diff_bins1 := mode_pd.bins.dedup.filter (fun x => decide (x ∉ pd.bins))
  let num_left1 := (diff_bins1.filter (fun x => decide (x < pyMinQ pd.bins))).length
  let num_right1 := (diff_bins1.filter (fun x => decide (pyMaxQ pd.bins < x))).length
  let padded1 := List.replicate num_left1 0 ++ pd.vals ++ List.replicate num_right1 0
  let pd' := { pd with vals := padded1 }
  let diff_bins2 := pd'.bins.dedup.filter (fun x => decide (x ∉ mode_pd.bins))
  let num_left2 := (diff_bins2.filter (fun x => decide (x < pyMinQ mode_pd.bins))).length
  let num_right2 := (diff_bins2.filter (fun x => decide (pyMaxQ mode_pd.bins < x))).length
  let padded2 := List.replicate num_left2 0 ++ mode_pd.vals ++ List.replicate num_right2 0
  let mode_pd' := { mode_pd with vals := padded2 }
  (pd', mode_pd')

/-- `tonic_estimate(dist, peak_idxs, mode_dist, distance_method, metric,
step_size)`.  The pcd branch takes column 0 of the distance matrix.  The pD
branch copies `dist` (without forwarding `overlap`, as in the source), zero
pads it against `mode_dist`, then further pads both vals with
`abs(max(peak_idxs))` zeros on the left and `abs(min(peak_idxs))` zeros on the
right — `max` is evaluated first and raises `ValueError` when `peak_idxs` is
empty.  A metric other than pcd and pD falls off the end of the Python
function and returns `None`, modeled as `ok none`. -/
def tonicEstimate (dist : PitchDistribution) (peak_idxs : List ℤ)
    (mode_dist : PitchDistribution) (distance_method metric : String)
    (step_size : ℚ) : Except String (Option (List PyFloat)) :=
  if metric = "pcd" then do
    let m ← generateDistanceMatrix dist peak_idxs [mode_dist] distance_method
    .ok (some (m.map (fun row => row.headD (.rat 0))))
  else if metric = "pD" then do
    let temp := mkPD dist.bins dist.vals dist.kernel_width dist.source
      dist.ref_freq dist.segmentation "-"
    let padded := pdZeroPad temp mode_dist step_size
    let mx ← pyMaxZ peak_idxs
    let mn ← pyMinZ peak_idxs
    let tv := List.replicate mx.natAbs 0 ++ padded.1.vals ++ List.replicate mn.natAbs 0
    let mv := List.replicate mx.natAbs 0 ++ padded.2.vals ++ List.replicate mn.natAbs 0
    let temp2 := { padded.1 with vals := tv }
    let mode2 := { padded.2 with vals := mv }
    let m ← generateDistanceMatrix temp2 peak_idxs [mode2] distance_method
    .ok (some (m.map (fun row => row.headD (.rat 0))))
  else
    .ok none

/-- `mode_estimate(dist, mode_dists, distance_method, metric, step_size)`.
The pcd branch takes row 0 of a one-row distance matrix.  The pD branch
iterates over the mode candidates, copies `dist`, zero pads the copy against
the current mode, and then calls `distance(trial, mode_trial, ...)` — passing
the `PitchDistribution` objects themselves, not their `.vals`, exactly as line
311 of the source does.  With an unknown metric the Python function reaches
`return distance_vector` with the variable unbound and raises
`UnboundLocalError`. -/
def modeEstimate (dist : PitchDistribution) (mode_dists : List PitchDistribution)
    (distance_method metric : String) (step_size : ℚ) :
    Except String (List PyFloat) :=
  if metric = "pcd" then do
    let m ← generateDistanceMatrix dist [0] mode_dists distance_method
    .ok (m.headD [])
  else if metric = "pD" then
    mode_dists.mapM (fun cur_mode => do
      let trial := mkPD dist.bins dist.vals dist.kernel_width dist.source
        dist.ref_freq dist.segmentation "-"
      let padded := pdZeroPad trial cur_mode step_size
      let d ← distanceFn (.pdObj padded.1) (.pdObj padded.2) distance_method
      npAssignScalar d)
  else
    .error "UnboundLocalError: local variable distance_vector referenced before assignment"

/-- Lines 44-47 of `generate_pd`: the raw histogram edge sequence
`np.concatenate([np.arange(-step/2, min_edge, -step)[::-1],
np.arange(step/2, max_edge, step)])` with `min_edge = min(track) - step/2` and
`max_edge = max(track) + step/2`. -/
def pdEdgesBase (cent_track : List ℚ) (step_size : ℚ) : List ℚ :=
  let min_edge := pyMinQ cent_track - step_size / 2
  let max_edge := pyMaxQ cent_track + step_size / 2
  (npArange (-(step_size / 2)) min_edge (-step_size)).reverse ++
    npArange (step_size / 2) max_edge step_size

/-- Line 54 of `generate_pd`: insert `-step/2` at the head when absent. -/
def pdEdges1 (cent_track : List ℚ) (step_size : ℚ) : List ℚ :=
  let e := pdEdgesBase cent_track step_size
  if -(step_size / 2) ∈ e then e else -(step_size / 2) :: e

/-- Line 55 of `generate_pd`: append `step/2` at the tail when absent.  The
result is the full edge list handed to `np.histogram`. -/
def pdEdges (cent_track : List ℚ) (step_size : ℚ) : List ℚ :=
  let e := pdEdges1 cent_track step_size
  if step_size / 2 ∈ e then e else e ++ [step_size / 2]

/-- The octave-wrapping accumulation loop shared by `generate_pcd` (which
remaps the hardcoded index `160` to `0`) and by the specification's wording
(which remaps `numBins = 1200/step_size`): starting from `allocN` zero bins,
each source bin value is added at `int((bin % 1200) / step_size)`, with index
`remapN` sent to `0`.  `%` is Python float modulo (result in `[0, 1200)`) and
`int` truncates (= floor on the nonnegative operand). -/
def pcdFoldWith (allocN remapN : ℕ) (pd : PitchDistribution) : List ℚ :=
  (List.range pd.bins.length).foldl
    (fun acc k =>
      let b := pd.bins.getD k 0
      let bmod := b - 1200 * ⌊b / 1200⌋
      let idx0 := (⌊bmod / pd.step_size⌋).toNat
      let idx := if idx0 ≠ remapN then idx0 else 0
      acc.set idx (acc.getD idx 0 + pd.vals.getD k 0))
    (List.replicate allocN 0)

/-- `generate_pcd(pd)` values: bins `np.arange(0, 1200, step)` and the
accumulation loop with the source's hardcoded `idx != 160` remap. -/
def genPCDvals (pd : PitchDistribution) : List ℚ :=
  pcdFoldWith (npArange 0 1200 pd.step_size).length 160 pd

/-- `generate_pcd(pd)`: a new distribution over `np.arange(0, 1200, step)`
carrying the accumulated values and the metadata of `pd`. -/
def genPCD (pd : PitchDistribution) : PitchDistribution :=
  mkPD (npArange 0 1200 pd.step_size) (genPCDvals pd) pd.kernel_width
    pd.source pd.ref_freq pd.segmentation pd.overlap

/-- Modelled from the spec: the accumulation that claim C2 describes, with the
wraparound remap at `numBins = 1200/step_size` instead of the source's
hardcoded `160`, over the same allocated bin array.  Used only to compare the
source's `genPCDvals` against the claim. -/
def specFoldPCDvals (pd : PitchDistribution) : List ℚ :=
  pcdFoldWith (npArange 0 1200 pd.step_size).length
    (Int.toNat ⌊(1200 : ℚ) / pd.step_size⌋) pd

/-- `1 + max(np.where(time_track < x)[0])` of `slice`: the successor of the
last index whose timestamp is below `x`; numpy `max` raises `ValueError` on an
empty index set. -/
def lastIdxLt (time_track : List ℚ) (x : ℚ) : Except String ℕ :=
  match ((List.range time_track.length).filter
      (fun i => decide (time_track.getD i 0 < x))).getLast? with
  | none => .error "ValueError: zero-size array to reduction operation"
  | some i => .ok i

/-- Python `l[a:b]` for nonnegative indices: drop `a`, keep `b - a` (empty when
`b ≤ a`). -/
def pySliceNat (l : List ℚ) (a b : ℕ) : List ℚ :=
  (l.drop a).take (b - a)

/-- One iteration of the main loop of `slice` (chunk boundary `chunk_size*k`):
append `pitch_track[last:cur-1]` and its `(source, init, final)` info tuple,
then advance `last` (to the overlapped restart point when `overlap > 0`,
otherwise to `cur`). -/
def sliceStep (time_track pitch_track : List ℚ) (pt_source : String)
    (chunk_size overlap : ℚ)
    (st : List (List ℚ) × List (String × ℤ × ℤ) × ℕ) (k : ℕ) :
    Except String (List (List ℚ) × List (String × ℤ × ℤ) × ℕ) := do
  let chunks := st.1
  let info := st.2.1
  let last := st.2.2
  let mi ← lastIdxLt time_track (chunk_size * k)
  let cur := mi + 1
  let chunks := chunks ++ [pySliceNat pitch_track last (cur - 1)]
  let info := info ++ [(pt_source, pyRound2 (time_track.getD last 0),
    pyRound2 (time_track.getD (cur - 1) 0))]
  let last ←
    if 0 < overlap then do
      let mo ← lastIdxLt time_track (chunk_size * k * (1 - overlap))
      pure (mo + 1)
    else
      pure cur
  pure (chunks, info, last)

/-- `slice(time_track, pitch_track, pt_source, chunk_size, threshold,
overlap)`: the main loop over boundaries `k = 1 .. int(max(time)/chunk_size)`
followed by the tail policy (emit the tail when it spans at least
`threshold*chunk_size`, or the whole track when no boundary was ever
crossed).  Out-of-range timestamp reads (impossible on the inputs the claims
use) fall back to `0` via `getD`. -/
def sliceModel (time_track pitch_track : List ℚ) (pt_source : String)
    (chunk_size threshold overlap : ℚ) :
    Except String (List (List ℚ) × List (String × ℤ × ℤ)) := do
  let n := (pyInt (pyMaxQ time_track / chunk_size)).toNat
  let st ← ((List.range n).map (fun i => i + 1)).foldlM
    (sliceStep time_track pitch_track pt_source chunk_size overlap) ([], [], 0)
  let chunks := st.1
  let info := st.2.1
  let last := st.2.2
  if chunk_size * threshold ≤ pyMaxQ time_track - time_track.getD last 0 then
    pure (chunks ++ [pitch_track.drop last],
      info ++ [(pt_source, pyRound2 (time_track.getD last 0),
        pyRound2 (time_track.getD (time_track.length - 1) 0))])
  else if last = 0 then
    pure (chunks ++ [pitch_track],
      info ++ [(pt_source, 0, pyRound2 (time_track.getD (time_track.length - 1) 0))])
  else
    pure (chunks, info)

deriving instance DecidableEq for Except

/-! Helper lemmas about the Python `min` / `max` folds. -/

theorem foldl_min_le_init (xs : List ℚ) (a : ℚ) : xs.foldl min a ≤ a := by
  induction xs generalizing a with
  | nil => exact le_refl a
  | cons x xs ih => exact le_trans (ih (min a x)) (min_le_left a x)

theorem foldl_min_le_mem (xs : List ℚ) (a : ℚ) {c : ℚ} (h : c ∈ xs) :
    xs.foldl min a ≤ c := by
  induction xs generalizing a with
  | nil => cases h
  | cons x xs ih =>
    rcases List.mem_cons.mp h with rfl | hx
    · exact le_trans (foldl_min_le_init xs (min a c)) (min_le_right a c)
    · exact ih (min a x) hx

theorem pyMinQ_le {l : List ℚ} {c : ℚ} (h : c ∈ l) : pyMinQ l ≤ c := by
  match l with
  | [] => cases h
  | x :: xs =>
    rcases List.mem_cons.mp h with rfl | hx
    · exact foldl_min_le_init xs c
    · exact foldl_min_le_mem xs x hx

theorem init_le_foldl_max (xs : List ℚ) (a : ℚ) : a ≤ xs.foldl max a := by
  induction xs generalizing a with
  | nil => exact le_refl a
  | cons x xs ih => exact le_trans (le_max_left a x) (ih (max a x))

theorem mem_le_foldl_max (xs : List ℚ) (a : ℚ) {c : ℚ} (h : c ∈ xs) :
    c ≤ xs.foldl max a := by
  induction xs generalizing a with
  | nil => cases h
  | cons x xs ih =>
    rcases List.mem_cons.mp h with rfl | hx
    · exact le_trans (le_max_right a c) (init_le_foldl_max xs (max a c))
    · exact ih (max a x) hx

theorem le_pyMaxQ {l : List ℚ} {c : ℚ} (h : c ∈ l) : c ≤ pyMaxQ l := by
  match l with
  | [] => cases h
  | x :: xs =>
    rcases List.mem_cons.mp h with rfl | hx
    · exact init_le_foldl_max xs c
    · exact mem_le_foldl_max xs x hx

theorem pyMinQ_le_pyMaxQ {l : List ℚ} (h : l ≠ []) : pyMinQ l ≤ pyMaxQ l := by
  obtain ⟨a, ha⟩ := List.exists_mem_of_ne_nil l h
  exact le_trans (pyMinQ_le ha) (le_pyMaxQ ha)

/-! Helper lemmas about Python slicing as rotation. -/

theorem pyIdxClamp_le (k : ℤ) (n : ℕ) : pyIdxClamp k n ≤ n := by
  unfold pyIdxClamp
  split
  · exact min_le_right _ _
  · exact Nat.sub_le _ _

theorem pyIdxClamp_add_neg {k : ℤ} (n : ℕ) (hk : k ≠ 0) :
    pyIdxClamp k n + pyIdxClamp (-k) n = n := by
  unfold pyIdxClamp
  rcases lt_or_gt_of_ne hk with h | h
  · rw [if_neg (not_le.mpr h), if_pos (by omega : (0 : ℤ) ≤ -k)]
    have := min_le_right (-k).toNat n
    omega
  · rw [if_pos (le_of_lt h), if_neg (by omega : ¬ (0 : ℤ) ≤ -k), neg_neg]
    have := min_le_right k.toNat n
    omega

theorem slices_eq_rotate (l : List ℚ) (k : ℤ) :
    pySliceFrom l k ++ pySliceTo l k = l.rotate (pyIdxClamp k l.length) :=
  (List.rotate_eq_drop_append_take (pyIdxClamp_le k l.length)).symm

theorem shiftPD_vals_pcd (pd : PitchDistribution) (k : ℤ) (hk : k ≠ 0)
    (hpcd : isPCD pd = true) :
    (shiftPD pd k).vals = pd.vals.rotate (pyIdxClamp k pd.vals.length) := by
  have hv : (shiftPD pd k).vals = pySliceFrom pd.vals k ++ pySliceTo pd.vals k := by
    simp [shiftPD, hk, hpcd, mkPD]
  rw [hv, slices_eq_rotate]

/-! Concrete sample distributions used by witnesses and counterexamples. -/

/-- A two-bin distribution with the default 7.5-cent step. -/
def pdSampleA : PitchDistribution := mkPD [0, 15/2] [1, 1] (15/2) "rec" 440 "all" "-"

/-- A four-bin distribution extending `pdSampleA` by one bin on each side. -/
def pdSampleB : PitchDistribution :=
  mkPD [-15/2, 0, 15/2, 15] [1, 1, 1, 1] (15/2) "mode" 440 "all" "-"

/-- A distribution whose derived step is 5 cents with a bin at 800 cents, so
the octave-folding index of its first bin is exactly 160. -/
def pdSampleC2 : PitchDistribution := mkPD [800, 805] [1, 0] (15/2) "rec" 440 "all" "-"

/-- A two-bin pitch-class distribution (step 600, bins 0 and 600). -/
def pcdSample : PitchDistribution := mkPD [0, 600] [3, 4] (15/2) "rec" 440 "all" "-"

/-- C1: the claim states that `distance(v1, v2, euclidean)` returns the
Euclidean distance, and in particular `distance(v, v, euclidean) = 0` with no
error.  In the code the statement `def distance` shadows the module name
imported by `from scipy.spatial import distance`, so the euclidean branch
evaluates `distance.euclidean` on the function object itself and raises
`AttributeError` — here shown at the failing input `vals_1 = vals_2 = [1]`. -/
theorem c1_euclidean_attribute_error :
    distanceFn (.arr [1]) (.arr [1]) "euclidean" =
      .error "AttributeError: function object has no attribute euclidean" := rfl

/-- C8: for every pair of value sequences (equal length or not, arrays or
objects) and every method string outside the six recognized ones, `distance`
returns 0 and raises no error. -/
theorem c8_unknown_method_zero (v1 v2 : PyVal) (method : String)
    (h : method ∉ ["euclidean", "manhattan", "l3", "bhat", "intersection", "corr"]) :
    distanceFn v1 v2 method = .ok (.rat 0) := by
  simp only [List.mem_cons, List.not_mem_nil, or_false, not_or] at h
  obtain ⟨h1, h2, h3, h4, h5, h6⟩ := h
  simp [distanceFn, h1, h2, h3, h4, h5, h6]

/-- Witness for C8 at method `chebyshev` on lists of different lengths. -/
theorem c8_unknown_method_zero_witness :
    ("chebyshev" ∉ ["euclidean", "manhattan", "l3", "bhat", "intersection", "corr"]) ∧
      distanceFn (.arr [1]) (.arr [1, 2]) "chebyshev" = .ok (.rat 0) :=
  ⟨by with_unfolding_all decide, c8_unknown_method_zero (.arr [1]) (.arr [1, 2]) "chebyshev" (by with_unfolding_all decide)⟩

/-- C7: the claim states each emitted chunk runs up to and including the last
sample whose timestamp is below the chunk boundary.  The code emits
`pitch_track[last:cur-1]`, which excludes that sample: on
`time_track = [0,1,2,3]`, `pitch_track = [10,20,30,40]`, `chunk_size = 2`,
the boundary-2 chunk is `[10]` — the sample `20` (timestamp `1 < 2`) is in no
chunk at all, even though the chunk info records its timestamp `1` as the
chunk's final time. -/
theorem c7_slice_boundary_sample_dropped :
    sliceModel [0, 1, 2, 3] [10, 20, 30, 40] "rec" 2 (1/2) 0 =
      .ok ([[10], [30, 40]], [("rec", 0, 1), ("rec", 2, 3)]) := by with_unfolding_all decide

/-- C4: the claim states that the pD branch of `mode_estimate` computes
`distance(trial.vals, template_i.vals, method)`.  Line 311 of the source
passes the `PitchDistribution` objects themselves, so for method
`intersection` the call raises `TypeError` (no `len()` on the object) — while
the distance of the vals sequences the claim describes is the well-defined
value 1 at this input. -/
theorem c4_mode_estimate_passes_objects :
    modeEstimate pdSampleA [pdSampleA] "intersection" "pD" (15/2) =
        .error "TypeError: object of type PitchDistribution has no len" ∧
      distanceFn (.arr pdSampleA.vals) (.arr pdSampleA.vals) "intersection" =
        .ok (.rat 1) := by
  exact ⟨by with_unfolding_all decide, by with_unfolding_all decide⟩

/-- C5 counterexample: with an empty `peak_idxs`, `tonic_estimate` under
metric pD raises `ValueError` from `max(peak_idxs)` instead of returning an
empty vector. -/
theorem c5_tonic_pd_empty_raises :
    tonicEstimate pdSampleA [] pdSampleB "euclidean" "pD" (15/2) =
        .error "ValueError: max arg is an empty sequence" ∧
      tonicEstimate pdSampleA [] pdSampleB "euclidean" "pD" (15/2) ≠
        .ok (some []) := by
  exact ⟨by with_unfolding_all decide, by with_unfolding_all decide⟩

/-- C5 amended: with an empty candidate set, `tonic_estimate` under pcd and
`mode_estimate` under both metrics return an empty vector without error, but
`tonic_estimate` under pD raises `ValueError` from `max` of the empty
`peak_idxs`.  The hypothesis records that the Python constructor the pcd
`mode_estimate` path re-runs requires at least two bins. -/
theorem c5_empty_candidates (dist mode_dist : PitchDistribution)
    (method : String) (s : ℚ) (_hbins : 2 ≤ dist.bins.length) :
    tonicEstimate dist [] mode_dist method "pcd" s = .ok (some []) ∧
      tonicEstimate dist [] mode_dist method "pD" s =
        .error "ValueError: max arg is an empty sequence" ∧
      modeEstimate dist [] method "pcd" s = .ok [] ∧
      modeEstimate dist [] method "pD" s = .ok [] :=
  ⟨rfl, rfl, rfl, rfl⟩

/-- Witness for C5 on the sample distributions. -/
theorem c5_empty_candidates_witness :
    2 ≤ pdSampleA.bins.length ∧
      (tonicEstimate pdSampleA [] pdSampleB "euclidean" "pcd" (15/2) = .ok (some []) ∧
        tonicEstimate pdSampleA [] pdSampleB "euclidean" "pD" (15/2) =
          .error "ValueError: max arg is an empty sequence" ∧
        modeEstimate pdSampleA [] "euclidean" "pcd" (15/2) = .ok [] ∧
        modeEstimate pdSampleA [] "euclidean" "pD" (15/2) = .ok []) :=
  ⟨by with_unfolding_all decide, c5_empty_candidates pdSampleA pdSampleB "euclidean" (15/2) (by with_unfolding_all decide)⟩

/-- C2 counterexample: `generate_pcd` remaps the hardcoded index 160, not
`numBins = 1200/step_size`.  On a distribution with derived step 5 and a bin
at 800 cents (`numBins = 240`, folding index `160 ≠ 240`), the code routes the
value to pitch class 0 while the claim's formula puts it at index 160. -/
theorem c2_hardcoded_remap_counterexample :
    (genPCD pdSampleC2).vals ≠ specFoldPCDvals pdSampleC2 ∧
      (genPCD pdSampleC2).vals.getD 0 0 = 1 ∧
      (genPCD pdSampleC2).vals.getD 160 0 = 0 ∧
      (specFoldPCDvals pdSampleC2).getD 160 0 = 1 := by
  exact ⟨by with_unfolding_all decide, by with_unfolding_all decide, by with_unfolding_all decide, by with_unfolding_all decide⟩

/-- C2 amended: for the default `step_size = 7.5` — exactly the case where the
hardcoded 160 equals `numBins = 1200/step_size` — `generate_pcd` allocates the
claimed 160 bins spanning `[0, 1200)` and its accumulated values coincide with
the claim's fold (index `floor((bin mod 1200)/step)`, wraparound remapped to
0, values summed). -/
theorem c2_pcd_fold_default_step (pd : PitchDistribution)
    (h : pd.step_size = 15/2) :
    (genPCD pd).bins = npArange 0 1200 (15/2) ∧
      (genPCD pd).bins.length = 160 ∧
      (genPCD pd).vals = specFoldPCDvals pd := by
  have ha : (npArange (0 : ℚ) 1200 (15/2)).length = 160 := by with_unfolding_all decide
  have hn : Int.toNat ⌊(1200 : ℚ) / (15/2)⌋ = 160 := by with_unfolding_all decide
  refine ⟨?_, ?_, ?_⟩
  · simp [genPCD, mkPD, h]
  · simp [genPCD, mkPD, h, ha]
  · simp [genPCD, mkPD, genPCDvals, specFoldPCDvals, h, ha, hn]

/-- Witness for C2 on a sample distribution with the default step. -/
theorem c2_pcd_fold_default_step_witness :
    pdSampleA.step_size = 15/2 ∧
      ((genPCD pdSampleA).bins = npArange 0 1200 (15/2) ∧
        (genPCD pdSampleA).bins.length = 160 ∧
        (genPCD pdSampleA).vals = specFoldPCDvals pdSampleA) :=
  ⟨by with_unfolding_all decide, c2_pcd_fold_default_step pdSampleA (by with_unfolding_all decide)⟩

/-- C3 counterexample: `pd_zero_pad` never touches `bins`, so on inputs that
need padding the first result has 2 bins but 4 vals — the claimed
`len(bins) == len(vals)` invariant fails on the result. -/
theorem c3_bins_vals_length_mismatch :
    (pdZeroPad pdSampleA pdSampleB (15/2)).1.bins = pdSampleA.bins ∧
      (pdZeroPad pdSampleA pdSampleB (15/2)).1.bins.length = 2 ∧
      (pdZeroPad pdSampleA pdSampleB (15/2)).1.vals.length = 4 ∧
      (pdZeroPad pdSampleA pdSampleB (15/2)).1.bins.length ≠
        (pdZeroPad pdSampleA pdSampleB (15/2)).1.vals.length := by
  exact ⟨by with_unfolding_all decide, by with_unfolding_all decide, by with_unfolding_all decide, by with_unfolding_all decide⟩

theorem length_filter_partition {l : List ℚ} {p q : ℚ → Bool}
    (h : ∀ x ∈ l, (p x = true ∨ q x = true) ∧ ¬(p x = true ∧ q x = true)) :
    (l.filter p).length + (l.filter q).length = l.length := by
  induction l with
  | nil => simp
  | cons x xs ih =>
    have hx := h x (List.mem_cons_self x xs)
    have ihh := ih (fun y hy => h y (List.mem_cons_of_mem x hy))
    by_cases hp : p x = true
    · have hq : q x = false :=
        eq_false_of_ne_true (fun hq => hx.2 ⟨hp, hq⟩)
      simp only [List.filter_cons, hp, hq, if_true, if_false, Bool.false_eq_true,
        List.length_cons]
      omega
    · have hq : q x = true := hx.1.resolve_left hp
      have hp' : p x = false := eq_false_of_ne_true hp
      simp only [List.filter_cons, hp', hq, if_true, if_false, Bool.false_eq_true,
        List.length_cons]
      omega

/-- Counting lemma for one side of `pd_zero_pad`: when every bin of `B`
missing from `A` lies strictly outside the range of `A`, the number of bins of
`A` plus the left and right zero-pad counts is the size of the union of the
two bin sets. -/
theorem pad_counts_card (A B : List ℚ) (hndA : A.Nodup) (hne : A ≠ [])
    (hgap : ∀ x ∈ B, x ∉ A → x < pyMinQ A ∨ pyMaxQ A < x) :
    A.length +
        ((B.dedup.filter (fun x => decide (x ∉ A))).filter
          (fun x => decide (x < pyMinQ A))).length +
        ((B.dedup.filter (fun x => decide (x ∉ A))).filter
          (fun x => decide (pyMaxQ A < x))).length =
      (A ++ B).toFinset.card := by
  set D := B.dedup.filter (fun x => decide (x ∉ A)) with hD
  have hmm : pyMinQ A ≤ pyMaxQ A := pyMinQ_le_pyMaxQ hne
  have hpart : (D.filter (fun x => decide (x < pyMinQ A))).length +
      (D.filter (fun x => decide (pyMaxQ A < x))).length = D.length := by
    apply length_filter_partition
    intro x hx
    have hx' := List.mem_filter.mp hx
    have hxB : x ∈ B := List.mem_dedup.mp hx'.1
    have hxA : x ∉ A := of_decide_eq_true hx'.2
    constructor
    · rcases hgap x hxB hxA with h | h
      · exact Or.inl (decide_eq_true h)
      · exact Or.inr (decide_eq_true h)
    · rintro ⟨h1, h2⟩
      have g1 := of_decide_eq_true h1
      have g2 := of_decide_eq_true h2
      linarith
  have hDnodup : D.Nodup := (List.nodup_dedup B).filter _
  have hDfin : D.toFinset = B.toFinset \ A.toFinset := by
    ext x
    simp [hD, List.mem_filter, Finset.mem_sdiff]
  have hDlen : D.length = (B.toFinset \ A.toFinset).card := by
    rw [← hDfin]
    exact (List.toFinset_card_of_nodup hDnodup).symm
  have hA : A.toFinset.card = A.length := List.toFinset_card_of_nodup hndA
  have hU : (A ++ B).toFinset = B.toFinset ∪ A.toFinset := by
    rw [List.toFinset_append, Finset.union_comm]
  rw [hU, ← Finset.card_sdiff_add_card B.toFinset A.toFinset]
  omega

/-- C3 amended: on inputs whose bin sets have no interior gaps relative to
each other (every bin missing from the other side lies strictly outside its
range, as `generate_pd` guarantees), `pd_zero_pad` returns both inputs with
`bins` unchanged and both `vals` extended to the same length — the number of
bins in the union of the two bin sets.  The claimed identity of bin sets and
the `len(bins) == len(vals)` invariant do not hold: only `vals` is padded. -/
theorem c3_zero_pad_vals_lengths (pdA pdB : PitchDistribution) (s : ℚ)
    (hneA : pdA.bins ≠ []) (hneB : pdB.bins ≠ [])
    (hndA : pdA.bins.Nodup) (hndB : pdB.bins.Nodup)
    (hlenA : pdA.bins.length = pdA.vals.length)
    (hlenB : pdB.bins.length = pdB.vals.length)
    (hgapA : ∀ x ∈ pdB.bins, x ∉ pdA.bins →
      x < pyMinQ pdA.bins ∨ pyMaxQ pdA.bins < x)
    (hgapB : ∀ x ∈ pdA.bins, x ∉ pdB.bins →
      x < pyMinQ pdB.bins ∨ pyMaxQ pdB.bins < x) :
    (pdZeroPad pdA pdB s).1.bins = pdA.bins ∧
      (pdZeroPad pdA pdB s).2.bins = pdB.bins ∧
      (pdZeroPad pdA pdB s).1.vals.length = (pdA.bins ++ pdB.bins).toFinset.card ∧
      (pdZeroPad pdA pdB s).2.vals.length = (pdA.bins ++ pdB.bins).toFinset.card ∧
      (pdZeroPad pdA pdB s).1.vals.length = (pdZeroPad pdA pdB s).2.vals.length := by
  have k1 := pad_counts_card pdA.bins pdB.bins hndA hneA hgapA
  have k2 := pad_counts_card pdB.bins pdA.bins hndB hneB hgapB
  have hcomm : (pdB.bins ++ pdA.bins).toFinset.card =
      (pdA.bins ++ pdB.bins).toFinset.card := by
    rw [List.toFinset_append, List.toFinset_append, Finset.union_comm]
  have l1 : (pdZeroPad pdA pdB s).1.vals.length =
      (pdA.bins ++ pdB.bins).toFinset.card := by
    simp only [pdZeroPad, List.length_append, List.length_replicate]
    omega
  have l2 : (pdZeroPad pdA pdB s).2.vals.length =
      (pdA.bins ++ pdB.bins).toFinset.card := by
    simp only [pdZeroPad, List.length_append, List.length_replicate]
    omega
  exact ⟨rfl, rfl, l1, l2, by rw [l1, l2]⟩

/-- Witness for C3 on the sample distributions (padding needed on both sides
of the first input, none on the second). -/
theorem c3_zero_pad_vals_lengths_witness :
    (pdSampleA.bins ≠ [] ∧ pdSampleB.bins ≠ [] ∧
      pdSampleA.bins.Nodup ∧ pdSampleB.bins.Nodup ∧
      pdSampleA.bins.length = pdSampleA.vals.length ∧
      pdSampleB.bins.length = pdSampleB.vals.length ∧
      (∀ x ∈ pdSampleB.bins, x ∉ pdSampleA.bins →
        x < pyMinQ pdSampleA.bins ∨ pyMaxQ pdSampleA.bins < x) ∧
      (∀ x ∈ pdSampleA.bins, x ∉ pdSampleB.bins →
        x < pyMinQ pdSampleB.bins ∨ pyMaxQ pdSampleB.bins < x)) ∧
      ((pdZeroPad pdSampleA pdSampleB (15/2)).1.bins = pdSampleA.bins ∧
        (pdZeroPad pdSampleA pdSampleB (15/2)).2.bins = pdSampleB.bins ∧
        (pdZeroPad pdSampleA pdSampleB (15/2)).1.vals.length =
          (pdSampleA.bins ++ pdSampleB.bins).toFinset.card ∧
        (pdZeroPad pdSampleA pdSampleB (15/2)).2.vals.length =
          (pdSampleA.bins ++ pdSampleB.bins).toFinset.card ∧
        (pdZeroPad pdSampleA pdSampleB (15/2)).1.vals.length =
          (pdZeroPad pdSampleA pdSampleB (15/2)).2.vals.length) :=
  ⟨⟨by with_unfolding_all decide, by with_unfolding_all decide,
    by with_unfolding_all decide, by with_unfolding_all decide,
    by with_unfolding_all decide, by with_unfolding_all decide,
    by with_unfolding_all decide, by with_unfolding_all decide⟩,
    c3_zero_pad_vals_lengths pdSampleA pdSampleB (15/2)
      (by with_unfolding_all decide) (by with_unfolding_all decide)
      (by with_unfolding_all decide) (by with_unfolding_all decide)
      (by with_unfolding_all decide) (by with_unfolding_all decide)
      (by with_unfolding_all decide) (by with_unfolding_all decide)⟩

/-- C6 counterexample: on `cent_track = [7.5]` with `step_size = 7.5` the
constructed edges are `[-3.75, 3.75]` — the sample `7.5` (the track maximum)
lies above every edge, so it is excluded from the histogram, refuting the
claimed coverage of `[min - step/2, max + step/2]`. -/
theorem c6_max_sample_excluded :
    pdEdges [(15/2 : ℚ)] (15/2) = [-(15/4), 15/4] ∧
      ¬ (∃ e ∈ pdEdges [(15/2 : ℚ)] (15/2), (15/2 : ℚ) ≤ e) := by
  exact ⟨by with_unfolding_all decide, by with_unfolding_all decide⟩

theorem pdEdgesBase_eq (t : List ℚ) (s : ℚ) :
    pdEdgesBase t s = (npArange (-(s/2)) (pyMinQ t - s/2) (-s)).reverse ++
      npArange (s/2) (pyMaxQ t + s/2) s := rfl

theorem mem_npArange {start stop step : ℚ} (i : ℕ)
    (h : i < Int.toNat ⌈(stop - start) / step⌉) :
    start + (i : ℚ) * step ∈ npArange start stop step := by
  unfold npArange
  exact List.mem_map_of_mem _ (List.mem_range.mpr h)

theorem pdEdges1_eq (t : List ℚ) (s : ℚ) :
    pdEdges1 t s = if -(s/2) ∈ pdEdgesBase t s then pdEdgesBase t s
      else -(s/2) :: pdEdgesBase t s := rfl

theorem pdEdges_eq (t : List ℚ) (s : ℚ) :
    pdEdges t s = if s/2 ∈ pdEdges1 t s then pdEdges1 t s
      else pdEdges1 t s ++ [s/2] := rfl

theorem mem_pdEdges_of_base {t : List ℚ} {s x : ℚ} (h : x ∈ pdEdgesBase t s) :
    x ∈ pdEdges t s := by
  have h1 : x ∈ pdEdges1 t s := by
    rw [pdEdges1_eq]
    split
    · exact h
    · exact List.mem_cons_of_mem _ h
  rw [pdEdges_eq]
  split
  · exact h1
  · exact List.mem_append_left _ h1

theorem neg_half_mem_pdEdges (t : List ℚ) (s : ℚ) : -(s/2) ∈ pdEdges t s := by
  have h1 : -(s/2) ∈ pdEdges1 t s := by
    rw [pdEdges1_eq]
    split
    · assumption
    · exact List.mem_cons_self _ _
  rw [pdEdges_eq]
  split
  · exact h1
  · exact List.mem_append_left _ h1

theorem half_mem_pdEdges (t : List ℚ) (s : ℚ) : s/2 ∈ pdEdges t s := by
  rw [pdEdges_eq]
  split
  · assumption
  · exact List.mem_append_right _ (List.mem_singleton_self _)

/-- When the track minimum is negative and the rounding condition
`-min/s + 1/2 ≤ ceil(-min/s)` holds, some constructed edge lies at or below
the minimum. -/
theorem exists_low_edge (t : List ℚ) (s : ℚ) (hs : 0 < s)
    (hm : pyMinQ t < 0)
    (hceil : -pyMinQ t / s + 1/2 ≤ (⌈-pyMinQ t / s⌉ : ℚ)) :
    ∃ e ∈ pdEdges t s, e ≤ pyMinQ t := by
  have hsne : s ≠ 0 := ne_of_gt hs
  have hu : 0 < -pyMinQ t / s := div_pos (by linarith) hs
  have hcnt1 : (1 : ℤ) ≤ ⌈-pyMinQ t / s⌉ := Int.ceil_pos.mpr hu
  have harg : (pyMinQ t - s/2 - -(s/2)) / -s = -pyMinQ t / s := by
    have hx : pyMinQ t - s/2 - -(s/2) = pyMinQ t := by ring
    rw [hx, div_neg, ← neg_div]
  have hiq : ((⌈-pyMinQ t / s⌉.toNat - 1 : ℕ) : ℚ) = (⌈-pyMinQ t / s⌉ : ℚ) - 1 := by
    have h2 : (1 : ℕ) ≤ ⌈-pyMinQ t / s⌉.toNat := by omega
    have h3 : (⌈-pyMinQ t / s⌉.toNat : ℤ) = ⌈-pyMinQ t / s⌉ :=
      Int.toNat_of_nonneg (by omega)
    have h4 : ((⌈-pyMinQ t / s⌉.toNat : ℕ) : ℚ) = (⌈-pyMinQ t / s⌉ : ℚ) := by
      rw [← Int.cast_natCast, h3]
    rw [Nat.cast_sub h2, h4, Nat.cast_one]
  have hmem : -(s/2) + ((⌈-pyMinQ t / s⌉.toNat - 1 : ℕ) : ℚ) * (-s) ∈
      npArange (-(s/2)) (pyMinQ t - s/2) (-s) := by
    apply mem_npArange
    rw [harg]
    omega
  have hmem2 : -(s/2) + ((⌈-pyMinQ t / s⌉.toNat - 1 : ℕ) : ℚ) * (-s) ∈
      pdEdgesBase t s := by
    rw [pdEdgesBase_eq]
    exact List.mem_append_left _ (List.mem_reverse.mpr hmem)
  refine ⟨_, mem_pdEdges_of_base hmem2, ?_⟩
  have hmineq : -pyMinQ t / s * s = -pyMinQ t := div_mul_cancel₀ _ hsne
  rw [hiq]
  nlinarith [mul_nonneg
    (by linarith : (0:ℚ) ≤ (⌈-pyMinQ t / s⌉ : ℚ) - -pyMinQ t / s - 1/2) hs.le]

/-- When the track maximum is positive and the rounding condition
`max/s + 1/2 ≤ ceil(max/s)` holds, some constructed edge lies at or above the
maximum. -/
theorem exists_high_edge (t : List ℚ) (s : ℚ) (hs : 0 < s)
    (hM : 0 < pyMaxQ t)
    (hceil : pyMaxQ t / s + 1/2 ≤ (⌈pyMaxQ t / s⌉ : ℚ)) :
    ∃ e ∈ pdEdges t s, pyMaxQ t ≤ e := by
  have hsne : s ≠ 0 := ne_of_gt hs
  have hu : 0 < pyMaxQ t / s := div_pos (by linarith) hs
  have hcnt1 : (1 : ℤ) ≤ ⌈pyMaxQ t / s⌉ := Int.ceil_pos.mpr hu
  have harg : (pyMaxQ t + s/2 - s/2) / s = pyMaxQ t / s := by
    have hx : pyMaxQ t + s/2 - s/2 = pyMaxQ t := by ring
    rw [hx]
  have hiq : ((⌈pyMaxQ t / s⌉.toNat - 1 : ℕ) : ℚ) = (⌈pyMaxQ t / s⌉ : ℚ) - 1 := by
    have h2 : (1 : ℕ) ≤ ⌈pyMaxQ t / s⌉.toNat := by omega
    have h3 : (⌈pyMaxQ t / s⌉.toNat : ℤ) = ⌈pyMaxQ t / s⌉ :=
      Int.toNat_of_nonneg (by omega)
    have h4 : ((⌈pyMaxQ t / s⌉.toNat : ℕ) : ℚ) = (⌈pyMaxQ t / s⌉ : ℚ) := by
      rw [← Int.cast_natCast, h3]
    rw [Nat.cast_sub h2, h4, Nat.cast_one]
  have hmem : s/2 + ((⌈pyMaxQ t / s⌉.toNat - 1 : ℕ) : ℚ) * s ∈
      npArange (s/2) (pyMaxQ t + s/2) s := by
    apply mem_npArange
    rw [harg]
    omega
  have hmem2 : s/2 + ((⌈pyMaxQ t / s⌉.toNat - 1 : ℕ) : ℚ) * s ∈
      pdEdgesBase t s := by
    rw [pdEdgesBase_eq]
    exact List.mem_append_right _ hmem
  refine ⟨_, mem_pdEdges_of_base hmem2, ?_⟩
  have hmaxeq : pyMaxQ t / s * s = pyMaxQ t := div_mul_cancel₀ _ hsne
  rw [hiq]
  nlinarith [mul_nonneg
    (by linarith : (0:ℚ) ≤ (⌈pyMaxQ t / s⌉ : ℚ) - pyMaxQ t / s - 1/2) hs.le]

/-- C6 amended: the exclusive-stop `arange` construction covers every sample
only under a rounding condition on each extreme: an edge at or above the
maximum exists iff `max ≤ 0` or `ceil(max/s) ≥ max/s + 1/2` (and symmetrically
below the minimum).  Under those conditions every sample of the track lies
between two constructed edges; when the condition fails (e.g. the maximum an
exact multiple of the step) the extreme sample falls outside every edge. -/
theorem c6_pd_edges_cover (cent_track : List ℚ) (s : ℚ)
    (_hne : cent_track ≠ []) (hs : 0 < s)
    (htop : pyMaxQ cent_track ≤ 0 ∨
      pyMaxQ cent_track / s + 1/2 ≤ (⌈pyMaxQ cent_track / s⌉ : ℚ))
    (hbot : 0 ≤ pyMinQ cent_track ∨
      -pyMinQ cent_track / s + 1/2 ≤ (⌈-pyMinQ cent_track / s⌉ : ℚ)) :
    ∀ c ∈ cent_track,
      (∃ e ∈ pdEdges cent_track s, e ≤ c) ∧
        (∃ e ∈ pdEdges cent_track s, c ≤ e) := by
  intro c hc
  have hcM : c ≤ pyMaxQ cent_track := le_pyMaxQ hc
  have hmc : pyMinQ cent_track ≤ c := pyMinQ_le hc
  constructor
  · by_cases hm : 0 ≤ pyMinQ cent_track
    · exact ⟨-(s/2), neg_half_mem_pdEdges _ _, by linarith⟩
    · push_neg at hm
      obtain ⟨e, he, hle⟩ :=
        exists_low_edge cent_track s hs hm (hbot.resolve_left (not_le.mpr hm))
      exact ⟨e, he, le_trans hle hmc⟩
  · by_cases hM : pyMaxQ cent_track ≤ 0
    · exact ⟨s/2, half_mem_pdEdges _ _, by linarith⟩
    · push_neg at hM
      obtain ⟨e, he, hle⟩ :=
        exists_high_edge cent_track s hs hM (htop.resolve_left (not_le.mpr hM))
      exact ⟨e, he, le_trans hcM hle⟩

/-- Witness for C6 on the track `[3]` with step 10 (edges `[-5, 5]`). -/
theorem c6_pd_edges_cover_witness :
    (([3] : List ℚ) ≠ [] ∧ (0:ℚ) < 10 ∧
      (pyMaxQ [3] ≤ 0 ∨ pyMaxQ [3] / 10 + 1/2 ≤ (⌈pyMaxQ [3] / 10⌉ : ℚ)) ∧
      (0 ≤ pyMinQ [3] ∨ -pyMinQ [3] / 10 + 1/2 ≤ (⌈-pyMinQ [3] / 10⌉ : ℚ)) ∧
      (3:ℚ) ∈ ([3] : List ℚ)) ∧
      ((∃ e ∈ pdEdges [3] 10, e ≤ (3:ℚ)) ∧ (∃ e ∈ pdEdges [3] 10, (3:ℚ) ≤ e)) :=
  ⟨⟨by with_unfolding_all decide, by with_unfolding_all decide,
    by with_unfolding_all decide, by with_unfolding_all decide,
    by with_unfolding_all decide⟩,
    c6_pd_edges_cover [3] 10 (by with_unfolding_all decide)
      (by with_unfolding_all decide) (by with_unfolding_all decide)
      (by with_unfolding_all decide) 3 (by with_unfolding_all decide)⟩

/-- C9: for a pitch-class distribution (with its `step_size` as derived by the
constructor), shifting by any integer `k` and then by `-k` restores `vals`
exactly: the circular shift is invertible, including for `|k|` at or beyond
the bin count, where Python slice clamping makes each of the two shifts the
identity. -/
theorem c9_pcd_shift_invertible (pd : PitchDistribution) (k : ℤ)
    (hpcd : isPCD pd = true) (hstep : pd.step_size = stepOf pd.bins) :
    (shiftPD (shiftPD pd k) (-k)).vals = pd.vals := by
  by_cases hk : k = 0
  · subst hk
    simp [shiftPD, mkPD]
  · have hk2 : -k ≠ 0 := neg_ne_zero.mpr hk
    have hbins : (shiftPD pd k).bins = pd.bins := by
      simp [shiftPD, hk, mkPD]
    have hstep2 : (shiftPD pd k).step_size = pd.step_size := by
      simp [shiftPD, hk, mkPD, ← hstep]
    have hpcd2 : isPCD (shiftPD pd k) = true := by
      unfold isPCD at hpcd ⊢
      rw [hbins, hstep2]
      exact hpcd
    rw [shiftPD_vals_pcd (shiftPD pd k) (-k) hk2 hpcd2,
      shiftPD_vals_pcd pd k hk hpcd, List.length_rotate, List.rotate_rotate,
      pyIdxClamp_add_neg pd.vals.length hk, List.rotate_length]

/-- Witness for C9 on a concrete PCD with a shift larger than its length. -/
theorem c9_pcd_shift_invertible_witness :
    (isPCD pcdSample = true ∧ pcdSample.step_size = stepOf pcdSample.bins) ∧
      (shiftPD (shiftPD pcdSample 5) (-5)).vals = pcdSample.vals :=
  ⟨⟨by with_unfolding_all decide, by with_unfolding_all decide⟩, c9_pcd_shift_invertible pcdSample 5 (by with_unfolding_all decide) (by with_unfolding_all decide)⟩

/-- C10: `shift` returns a new distribution whose bins, step_size,
kernel_width, ref_freq, segmentation, source and overlap all equal the
input's (the hypothesis records that `step_size` is the one the constructor
derives from `bins`, which `__init__` recomputes on the result); in this pure
embedding the input itself is untouched by construction, so only `vals` can
differ. -/
theorem c10_shift_frame (pd : PitchDistribution) (k : ℤ)
    (hstep : pd.step_size = stepOf pd.bins) :
    (shiftPD pd k).bins = pd.bins ∧
      (shiftPD pd k).step_size = pd.step_size ∧
      (shiftPD pd k).kernel_width = pd.kernel_width ∧
      (shiftPD pd k).ref_freq = pd.ref_freq ∧
      (shiftPD pd k).segmentation = pd.segmentation ∧
      (shiftPD pd k).source = pd.source ∧
      (shiftPD pd k).overlap = pd.overlap := by
  refine ⟨?_, ?_, ?_, ?_, ?_, ?_, ?_⟩ <;>
    (unfold shiftPD; split <;> simp [mkPD, ← hstep])

/-- Witness for C10 on a concrete distribution and shift. -/
theorem c10_shift_frame_witness :
    pcdSample.step_size = stepOf pcdSample.bins ∧
      ((shiftPD pcdSample 3).bins = pcdSample.bins ∧
        (shiftPD pcdSample 3).step_size = pcdSample.step_size ∧
        (shiftPD pcdSample 3).kernel_width = pcdSample.kernel_width ∧
        (shiftPD pcdSample 3).ref_freq = pcdSample.ref_freq ∧
        (shiftPD pcdSample 3).segmentation = pcdSample.segmentation ∧
        (shiftPD pcdSample 3).source = pcdSample.source ∧
        (shiftPD pcdSample 3).overlap = pcdSample.overlap) :=
  ⟨by with_unfolding_all decide, c10_shift_frame pcdSample 3 (by with_unfolding_all decide)⟩

end MTE
